import Mathlib

/-
Formal model of the question-matching heuristic of the MCP-Server repository.

The modelled code is:
  * `get_question` and `find_matching_question` in openAI-integration/client.py
    (scoring there lowercases and splits, without removing punctuation);
  * `find_matching_question` in GeminiAI-integration/client.py and tests/test.py
    (scoring there additionally removes punctuation with re.sub applied to the
    lowercased text) — modelled as `find_matching_question_clean`;
  * the sample knowledge base from tests/test.py (`sampleKB`).

Strings are modelled as `List Char`.  Character classes (whitespace, word
characters, upper case, digits, lowercasing) are modelled on the ASCII
fragment, which covers every string appearing in the repository.

The regex `Q{n}:\s*(.*?)(?=\n[A-Z]\d+:|$)` used with re.search and re.DOTALL
is modelled by its exact matching semantics:
  * the search anchors at the leftmost occurrence of the literal marker
    `Q<n>:` (the rest of the pattern can always complete, since the `$`
    alternative of the lookahead eventually matches);
  * `\s*` greedily consumes the whitespace following the marker (it is never
    given back, because the match as a whole always succeeds);
  * the lazy group `(.*?)` captures the shortest span after which either the
    lookahead `\n[A-Z]\d+:` matches (a newline, an upper-case ASCII letter,
    one or more ASCII digits, then a colon) or `$` matches (end of input, or
    just before a newline that ends the input);
  * the captured span is finally stripped of surrounding whitespace.
-/

/-- Whitespace characters recognised by Python for this model (the ASCII
whitespace characters matched by the regex class backslash-s, by str.split
with no argument, and by str.strip). -/
def isPySpace (c : Char) : Bool :=
  c == ' ' || c == '\t' || c == '\n' || c == '\r' || c == '\x0b' || c == '\x0c'

/-- Word characters recognised by the Python regex class backslash-w on the
ASCII fragment: letters, digits and the underscore. -/
def isPyWordChar (c : Char) : Bool :=
  c.isAlphanum || c == '_'

/-- Greedily drop leading Python whitespace (the `\s*` part of the pattern). -/
def dropPySpaces : List Char → List Char
  | [] => []
  | c :: cs => if isPySpace c then dropPySpaces cs else c :: cs

/-- Python str.strip: remove leading and trailing whitespace. -/
def pyStrip (l : List Char) : List Char :=
  (dropPySpaces (dropPySpaces l).reverse).reverse

/-- Helper for `pySplit`, accumulating the current word in reverse. -/
def pySplitAux : List Char → List Char → List (List Char)
  | [], acc => if acc.isEmpty then [] else [acc.reverse]
  | c :: cs, acc =>
    if isPySpace c then
      if acc.isEmpty then pySplitAux cs [] else acc.reverse :: pySplitAux cs []
    else pySplitAux cs (c :: acc)

/-- Python str.split with no argument: split on runs of whitespace,
discarding empty pieces. -/
def pySplit (l : List Char) : List (List Char) :=
  pySplitAux l []

/-- Python str.lower on the ASCII fragment. -/
def pyLower (l : List Char) : List Char :=
  l.map Char.toLower

/-- Test whether `m` is a prefix of `l`. -/
def startsWith : List Char → List Char → Bool
  | [], _ => true
  | _ :: _, [] => false
  | m :: ms, c :: cs => (m == c) && startsWith ms cs

/-- Leftmost-occurrence search: the suffix of `l` that follows the first
occurrence of `m`, or `none` when `m` does not occur in `l`.  Models where
re.search anchors the literal part of the pattern. -/
def afterFirst (m : List Char) : List Char → Option (List Char)
  | [] => none
  | c :: cs =>
    if startsWith m (c :: cs) then some (List.drop m.length (c :: cs))
    else afterFirst m cs

/-- Whether `m` occurs as a contiguous substring of `l`. -/
def occursIn (m l : List Char) : Bool :=
  (afterFirst m l).isSome

/-- Matching of the regex fragment `\d*:` at the front of a list (used after
the first digit of the lookahead has been consumed). -/
def digitsStarColon : List Char → Bool
  | [] => false
  | c :: cs => c == ':' || (c.isDigit && digitsStarColon cs)

/-- Matching of the lookahead `\n[A-Z]\d+:` at the front of the remaining
input. -/
def lookaheadTerm : List Char → Bool
  | '\n' :: u :: d :: rest => u.isUpper && d.isDigit && digitsStarColon rest
  | _ => false

/-- Matching of `$` (without re.MULTILINE): at the end of the input, or just
before a newline that ends the input. -/
def atDollar : List Char → Bool
  | [] => true
  | ['\n'] => true
  | _ => false

/-- Lazy capture of `(.*?)` under the lookahead `(?=\n[A-Z]\d+:|$)` with
re.DOTALL: the shortest prefix after which the lookahead or `$` matches. -/
def captureUpTo : List Char → List Char
  | [] => []
  | c :: cs =>
    if lookaheadTerm (c :: cs) || atDollar (c :: cs) then []
    else c :: captureUpTo cs

/-- Literal marker `Q<n>:` of the pattern. -/
def qMarker (n : Nat) : List Char :=
  'Q' :: (Nat.repr n).data ++ [':']

/-- Model of `get_question(kb_text, q_num)`: `none` models the Python return
value None (pattern not found); `some` carries the stripped captured span,
which may be empty. -/
def get_question (kb_text : List Char) (q_num : Nat) : Option (List Char) :=
  match afterFirst (qMarker q_num) kb_text with
  | none => none
  | some rest => some (pyStrip (captureUpTo (dropPySpaces rest)))

/-- Model of the extraction loop of `find_matching_question`:
`for i in range(1, 10)` probing `get_question` and breaking at the first
falsy result (None or the empty string).  `fuel` counts the remaining
iterations; the loop starts with `i = 1` and `fuel = 9`. -/
def collectAux (kb : List Char) : Nat → Nat → List (Nat × List Char)
  | _, 0 => []
  | i, fuel + 1 =>
    match get_question kb i with
    | none => []
    | some q => if q = [] then [] else (i, q) :: collectAux kb (i + 1) fuel

/-- The ordered association list `all_questions` built by the loop of
`find_matching_question` (Python dicts preserve insertion order). -/
def collect_questions (kb : List Char) : List (Nat × List Char) :=
  collectAux kb 1 9

/-- Token set of the openAI-integration scorer: `set(text.lower().split())`.
Duplicates are removed when the score is computed. -/
def tokensRaw (l : List Char) : List (List Char) :=
  pySplit (pyLower l)

/-- Normalisation of the GeminiAI-integration and tests/test.py scorers:
`re.sub(r'[^\w\s]', '', text.lower())` — lowercase, then delete every
character that is neither a word character nor whitespace. -/
def cleanText (l : List Char) : List Char :=
  (pyLower l).filter (fun c => isPyWordChar c || isPySpace c)

/-- Token set of the GeminiAI-integration and tests/test.py scorers. -/
def tokensClean (l : List Char) : List (List Char) :=
  pySplit (cleanText l)

/-- Score of the openAI-integration client:
`len(set(user_query.lower().split()) & set(q_text.lower().split()))`.
The count of distinct common tokens equals the size of the set
intersection. -/
def score_openai (user_query q_text : List Char) : Nat :=
  ((tokensRaw user_query).dedup.filter (fun w => w ∈ tokensRaw q_text)).length

/-- Score of the GeminiAI-integration client and of tests/test.py: the same
set intersection computed on punctuation-stripped text. -/
def score_clean (user_query q_text : List Char) : Nat :=
  ((tokensClean user_query).dedup.filter (fun w => w ∈ tokensClean q_text)).length

/-- Model of the scoring loop of `find_matching_question`: fold over the
entries in insertion order, carrying `(best_match, highest_score)` and
updating only on a strictly greater score. -/
def bestPair (f : List Char → Nat) : List (Nat × List Char) → Nat × Nat → Nat × Nat
  | [], s => s
  | (i, q) :: rest, (b, h) =>
    if f q > h then bestPair f rest (i, f q) else bestPair f rest (b, h)

/-- Model of `find_matching_question(kb_text, user_query)` of
openAI-integration/client.py.  The final `all_questions[best_match]` is a
dict lookup that raises KeyError when the key is absent; the model returns
`none` in exactly that situation. -/
def find_matching_question (kb_text user_query : List Char) : Option (Nat × List Char) :=
  let all_questions := collect_questions kb_text
  let best_match := (bestPair (fun q => score_openai user_query q) all_questions (1, 0)).1
  (List.lookup best_match all_questions).map (fun t => (best_match, t))

/-- Model of `find_matching_question(kb_text, user_query)` of
GeminiAI-integration/client.py and tests/test.py (identical to the
openAI-integration version except for the punctuation-stripping
normalisation in the scorer). -/
def find_matching_question_clean (kb_text user_query : List Char) : Option (Nat × List Char) :=
  let all_questions := collect_questions kb_text
  let best_match := (bestPair (fun q => score_clean user_query q) all_questions (1, 0)).1
  (List.lookup best_match all_questions).map (fun t => (best_match, t))

/-- Sample knowledge base of tests/test.py (the variable `text`). -/
def sampleKB : String :=
  "Here is the retrieved knowledge base:\n\nQ1: What is our company\x27s vacation policy?\nA1: Full-time employees are entitled to 20 paid vacation days per year. Vacation days can be taken after completing 6 months of employment. Unused vacation days can be carried over to the next year up to a maximum of 5 days. Vacation requests should be submitted at least 2 weeks in advance through the HR portal.\n\nQ2: How do I request a new software license?\nA2: To request a new software license, please submit a ticket through the IT Service Desk portal. Include the software name, version, and business justification. Standard software licenses are typically approved within 2 business days. For specialized software, approval may take up to 5 business days and may require department head approval.\n\nQ3: What is our remote work policy?\nA3: Our company follows a hybrid work model. Employees can work remotely up to 3 days per week. Remote work days must be coordinated with your team and approved by your direct manager. All remote work requires a stable internet connection and a dedicated workspace. Core collaboration hours are 10:00 AM to 3:00 PM EST.\n\nQ4: How do I submit an expense report?\nA4: Expense reports should be submitted through the company\x27s expense management system. Include all receipts, categorize expenses appropriately, and add a brief description for each entry. Reports must be submitted within 30 days of the expense. For expenses over $100, additional documentation may be required. All reports require manager approval.\n\nQ5: What is our process for reporting a security incident?\nA5: If you discover a security incident, immediately contact the Security Team at security@company.com or call the 24/7 security hotline. Do not attempt to investigate or resolve the incident yourself. Document what you observed, including timestamps and affected systems. The Security Team will guide you through the incident response process and may need your assistance for investigation."

/-- Equation lemma for the successor case of the extraction loop. -/
lemma collectAux_succ (kb : List Char) (i fuel : Nat) :
    collectAux kb i (fuel + 1) =
      match get_question kb i with
      | none => []
      | some q => if q = [] then [] else (i, q) :: collectAux kb (i + 1) fuel := rfl

/-- Every entry of the extraction loop has an index in the probed range, is
reproduced by `get_question`, and has non-empty text. -/
lemma mem_collectAux (kb : List Char) :
    ∀ (fuel i : Nat) (e : Nat × List Char), e ∈ collectAux kb i fuel →
      i ≤ e.1 ∧ e.1 < i + fuel ∧ get_question kb e.1 = some e.2 ∧ e.2 ≠ [] := by
  intro fuel
  induction fuel with
  | zero => intro i e he; simp [collectAux] at he
  | succ n ih =>
    intro i e he
    rw [collectAux_succ] at he
    cases hgq : get_question kb i with
    | none => rw [hgq] at he; simp at he
    | some q =>
      rw [hgq] at he
      have he' : e ∈ (if q = [] then ([] : List (Nat × List Char))
          else (i, q) :: collectAux kb (i + 1) n) := he
      by_cases hq : q = []
      · rw [if_pos hq] at he'; simp at he'
      · rw [if_neg hq] at he'
        rcases List.mem_cons.mp he' with h | h
        · subst h
          refine ⟨Nat.le_refl _, ?_, hgq, hq⟩
          show i < i + (n + 1)
          omega
        · obtain ⟨h1, h2, h3, h4⟩ := ih (i + 1) e h
          exact ⟨by omega, by omega, h3, h4⟩

/-- The extraction loop returns at most `fuel` entries. -/
lemma collectAux_length_le (kb : List Char) :
    ∀ (fuel i : Nat), (collectAux kb i fuel).length ≤ fuel := by
  intro fuel
  induction fuel with
  | zero => intro i; simp [collectAux]
  | succ n ih =>
    intro i
    rw [collectAux_succ]
    cases hgq : get_question kb i with
    | none => simp
    | some q =>
      show (if q = [] then ([] : List (Nat × List Char))
          else (i, q) :: collectAux kb (i + 1) n).length ≤ n + 1
      by_cases hq : q = []
      · rw [if_pos hq]; simp
      · rw [if_neg hq]
        simpa using Nat.succ_le_succ (ih (i + 1))

/-- Entries of the extraction loop are listed in strictly increasing index
order. -/
lemma sorted_collectAux (kb : List Char) :
    ∀ (fuel i : Nat), (collectAux kb i fuel).Pairwise (fun a b => a.1 < b.1) := by
  intro fuel
  induction fuel with
  | zero => intro i; simp [collectAux]
  | succ n ih =>
    intro i
    rw [collectAux_succ]
    cases hgq : get_question kb i with
    | none => simp
    | some q =>
      show List.Pairwise (fun a b => a.1 < b.1)
          (if q = [] then ([] : List (Nat × List Char)) else (i, q) :: collectAux kb (i + 1) n)
      by_cases hq : q = []
      · rw [if_pos hq]; simp
      · rw [if_neg hq]
        refine List.Pairwise.cons ?_ (ih (i + 1))
        intro e he
        have h1 := (mem_collectAux kb n (i + 1) e he).1
        show i < e.1
        omega

/-- Either the loop collects nothing at index `i`, or its first collected
entry is exactly index `i`. -/
lemma head_collectAux (kb : List Char) (fuel i : Nat) :
    collectAux kb i (fuel + 1) = [] ∨
    ∃ q, q ≠ [] ∧ get_question kb i = some q ∧
      collectAux kb i (fuel + 1) = (i, q) :: collectAux kb (i + 1) fuel := by
  cases hgq : get_question kb i with
  | none =>
    left
    rw [collectAux_succ, hgq]
  | some q =>
    by_cases hq : q = []
    · left
      rw [collectAux_succ, hgq]
      show (if q = [] then ([] : List (Nat × List Char))
          else (i, q) :: collectAux kb (i + 1) fuel) = []
      rw [if_pos hq]
    · right
      refine ⟨q, hq, rfl, ?_⟩
      rw [collectAux_succ, hgq]
      show (if q = [] then ([] : List (Nat × List Char))
          else (i, q) :: collectAux kb (i + 1) fuel) = (i, q) :: collectAux kb (i + 1) fuel
      rw [if_neg hq]

/-- A non-empty collection always starts with an entry of index 1. -/
lemma collect_head (kb : List Char) (h : collect_questions kb ≠ []) :
    ∃ q, q ≠ [] ∧ get_question kb 1 = some q ∧
      collect_questions kb = (1, q) :: collectAux kb 2 8 := by
  have h9 : collect_questions kb = collectAux kb 1 (8 + 1) := rfl
  rcases head_collectAux kb 8 1 with he | ⟨q, hq, hgq, heq⟩
  · exact absurd (h9.trans he) h
  · exact ⟨q, hq, hgq, h9.trans heq⟩

/-- On an association list with strictly increasing keys, `List.lookup`
retrieves exactly the member with that key. -/
lemma lookup_of_mem :
    ∀ (l : List (Nat × List Char)), l.Pairwise (fun a b => a.1 < b.1) →
      ∀ (b : Nat) (t : List Char), (b, t) ∈ l → List.lookup b l = some t := by
  intro l
  induction l with
  | nil => intro _ b t h; simp at h
  | cons a tl ih =>
    intro hp b t hm
    obtain ⟨k, v⟩ := a
    by_cases hkb : k = b
    · subst hkb
      rcases List.mem_cons.mp hm with h | h
      · obtain ⟨rfl⟩ : t = v := by
          have := (Prod.mk.injEq k t k v).mp h
          exact this.2
        simp [List.lookup]
      · exfalso
        have hhead := (List.pairwise_cons.mp hp).1 (k, t) h
        exact absurd hhead (by simp)
    · have hm' : (b, t) ∈ tl := by
        rcases List.mem_cons.mp hm with h | h
        · exact absurd ((Prod.mk.injEq b t k v).mp h).1 (Ne.symm hkb)
        · exact h
      have htl := ih (List.pairwise_cons.mp hp).2 b t hm'
      have hbk : (b == k) = false := beq_eq_false_iff_ne.mpr (Ne.symm hkb)
      simp [List.lookup, hbk, htl]

/-- A successful `List.lookup` always comes from a member of the list. -/
lemma mem_of_lookup :
    ∀ (l : List (Nat × List Char)) (b : Nat) (t : List Char),
      List.lookup b l = some t → (b, t) ∈ l := by
  intro l
  induction l with
  | nil => intro b t h; simp [List.lookup] at h
  | cons a tl ih =>
    intro b t h
    obtain ⟨k, v⟩ := a
    by_cases hkb : k = b
    · subst hkb
      have hl : List.lookup k ((k, v) :: tl) = some v := by simp [List.lookup]
      rw [hl] at h
      obtain ⟨rfl⟩ : v = t := by injection h
      exact List.mem_cons_self _ _
    · have hbk : (b == k) = false := beq_eq_false_iff_ne.mpr (Ne.symm hkb)
      have hl : List.lookup b ((k, v) :: tl) = List.lookup b tl := by
        simp [List.lookup, hbk]
      rw [hl] at h
      exact List.mem_cons_of_mem _ (ih b t h)

/-- Equation lemma for the scoring loop. -/
lemma bestPair_cons (f : List Char → Nat) (i : Nat) (q : List Char)
    (rest : List (Nat × List Char)) (b h : Nat) :
    bestPair f ((i, q) :: rest) (b, h) =
      if f q > h then bestPair f rest (i, f q) else bestPair f rest (b, h) := rfl

/-- When no entry scores strictly above the running best, the state never
changes. -/
lemma bestPair_no_update (f : List Char → Nat) :
    ∀ (l : List (Nat × List Char)) (b h : Nat),
      (∀ e ∈ l, f e.2 ≤ h) → bestPair f l (b, h) = (b, h) := by
  intro l
  induction l with
  | nil => intro b h _; rfl
  | cons a tl ih =>
    intro b h hall
    obtain ⟨i, q⟩ := a
    rw [bestPair_cons, if_neg (Nat.not_lt.mpr (hall (i, q) (List.mem_cons_self _ _)))]
    exact ih b h (fun e he => hall e (List.mem_cons_of_mem _ he))

/-- Characterisation of the scoring loop: either nothing beats the initial
score and the initial state survives, or the result is the first entry that
attains the overall maximum (everything before it scores strictly lower,
everything after it scores no higher). -/
lemma bestPair_char (f : List Char → Nat) :
    ∀ (l : List (Nat × List Char)) (b0 h0 : Nat),
      (bestPair f l (b0, h0) = (b0, h0) ∧ ∀ e ∈ l, f e.2 ≤ h0) ∨
      (∃ l₁ e l₂, l = l₁ ++ e :: l₂ ∧
        bestPair f l (b0, h0) = (e.1, f e.2) ∧ h0 < f e.2 ∧
        (∀ a ∈ l₁, f a.2 < f e.2) ∧ (∀ a ∈ l₂, f a.2 ≤ f e.2)) := by
  intro l
  induction l with
  | nil => intro b0 h0; left; exact ⟨rfl, by simp⟩
  | cons hd tl ih =>
    intro b0 h0
    obtain ⟨i, q⟩ := hd
    by_cases hgt : f q > h0
    · rw [bestPair_cons, if_pos hgt]
      rcases ih i (f q) with ⟨heq, hall⟩ | ⟨l₁, e, l₂, hsp, hres, hlt, h₁, h₂⟩
      · right
        exact ⟨[], (i, q), tl, by simp, heq, hgt, by simp, hall⟩
      · right
        refine ⟨(i, q) :: l₁, e, l₂, by rw [hsp]; rfl, hres, lt_trans hgt hlt, ?_, h₂⟩
        intro a ha
        rcases List.mem_cons.mp ha with h | h
        · subst h; exact hlt
        · exact h₁ a h
    · rw [bestPair_cons, if_neg hgt]
      have hle : f q ≤ h0 := Nat.not_lt.mp hgt
      rcases ih b0 h0 with ⟨heq, hall⟩ | ⟨l₁, e, l₂, hsp, hres, hlt, h₁, h₂⟩
      · left
        refine ⟨heq, ?_⟩
        intro a ha
        rcases List.mem_cons.mp ha with h | h
        · subst h; exact hle
        · exact hall a h
      · right
        refine ⟨(i, q) :: l₁, e, l₂, by rw [hsp]; rfl, hres, hlt, ?_, h₂⟩
        intro a ha
        rcases List.mem_cons.mp ha with h | h
        · subst h; exact lt_of_le_of_lt hle hlt
        · exact h₁ a h

/-- Inversion of the final dict lookup of the matchers. -/
lemma map_lookup_inv (qs : List (Nat × List Char)) (bm b : Nat) (t : List Char)
    (h : (List.lookup bm qs).map (fun u => (bm, u)) = some (b, t)) :
    b = bm ∧ List.lookup bm qs = some t := by
  cases hlu : List.lookup bm qs with
  | none => rw [hlu] at h; simp at h
  | some u =>
    rw [hlu] at h
    simp only [Option.map_some', Option.some.injEq, Prod.mk.injEq] at h
    exact ⟨h.1.symm, by rw [h.2]⟩

/-- Inversion of a normal return of the openAI-integration matcher. -/
lemma find_inv (kb query : List Char) (b : Nat) (t : List Char)
    (h : find_matching_question kb query = some (b, t)) :
    b = (bestPair (fun q => score_openai query q) (collect_questions kb) (1, 0)).1 ∧
    List.lookup b (collect_questions kb) = some t := by
  have h' : (List.lookup
      (bestPair (fun q => score_openai query q) (collect_questions kb) (1, 0)).1
      (collect_questions kb)).map
      (fun u => ((bestPair (fun q => score_openai query q) (collect_questions kb) (1, 0)).1, u))
      = some (b, t) := h
  obtain ⟨h1, h2⟩ := map_lookup_inv _ _ _ _ h'
  exact ⟨h1, h1 ▸ h2⟩

/-- Inversion of a normal return of the GeminiAI-integration matcher. -/
lemma find_clean_inv (kb query : List Char) (b : Nat) (t : List Char)
    (h : find_matching_question_clean kb query = some (b, t)) :
    b = (bestPair (fun q => score_clean query q) (collect_questions kb) (1, 0)).1 ∧
    List.lookup b (collect_questions kb) = some t := by
  have h' : (List.lookup
      (bestPair (fun q => score_clean query q) (collect_questions kb) (1, 0)).1
      (collect_questions kb)).map
      (fun u => ((bestPair (fun q => score_clean query q) (collect_questions kb) (1, 0)).1, u))
      = some (b, t) := h
  obtain ⟨h1, h2⟩ := map_lookup_inv _ _ _ _ h'
  exact ⟨h1, h1 ▸ h2⟩

/-- Normal return of the openAI-integration matcher from a successful
lookup. -/
lemma find_eq_some (kb query : List Char) (bm : Nat) (t : List Char)
    (hbm : (bestPair (fun q => score_openai query q) (collect_questions kb) (1, 0)).1 = bm)
    (hlu : List.lookup bm (collect_questions kb) = some t) :
    find_matching_question kb query = some (bm, t) := by
  show (List.lookup
      (bestPair (fun q => score_openai query q) (collect_questions kb) (1, 0)).1
      (collect_questions kb)).map
      (fun u => ((bestPair (fun q => score_openai query q) (collect_questions kb) (1, 0)).1, u))
      = some (bm, t)
  rw [hbm, hlu]
  rfl

/-- Ten sequential well-formed entries, used for the nine-entry ceiling. -/
def kb10 : String :=
  "Q1: a1\nQ2: a2\nQ3: a3\nQ4: a4\nQ5: a5\nQ6: a6\nQ7: a7\nQ8: a8\nQ9: a9\nQ10: a10"

/-- The test query of tests/test.py and of both clients. -/
def expenseQuery : String := "How can I submit a report on expenses?"

/-- Claim C1, counterexample: in the openAI-integration client the score is
computed without removing punctuation, so the spec instance fails there —
score("What IS the Policy?", "what is the policy") is 3 (the token
"policy?" does not match "policy"), not 4. -/
theorem score_punctuation_cex :
    score_openai "What IS the Policy?".data "what is the policy".data ≠
      score_openai "what is the policy".data "what is the policy".data := by decide

/-- Claim C1, amended: in the GeminiAI-integration client and in
tests/test.py both inputs are normalised identically — lowercased, every
character that is neither a word character (alphanumeric or underscore) nor
whitespace removed, then split into a set of distinct tokens — and the
spec instance holds there with score 4; the openAI-integration scorer only
lowercases and splits, and scores 3 on the same instance. -/
theorem score_clean_normalization :
    cleanText "What IS the Policy?".data = cleanText "what is the policy".data ∧
    score_clean "What IS the Policy?".data "what is the policy".data =
      score_clean "what is the policy".data "what is the policy".data ∧
    score_clean "What IS the Policy?".data "what is the policy".data = 4 ∧
    score_openai "What IS the Policy?".data "what is the policy".data = 3 := by decide

/-- Claim C2 (code bug): when `kb_text` contains no `Q1:` marker the
collection is empty and `find_matching_question` reaches the dict lookup
`all_questions[best_match]` with `best_match = 1` on the empty dict — a
KeyError, modelled by the `none` result — instead of failing with a clearly
named "no questions available" condition. -/
theorem empty_kb_lookup_fails (kb user_query : List Char)
    (h : occursIn "Q1:".data kb = false) :
    collect_questions kb = [] ∧ find_matching_question kb user_query = none := by
  have hA : afterFirst (qMarker 1) kb = none := by
    have hqm : qMarker 1 = "Q1:".data := rfl
    rw [hqm]
    cases hx : afterFirst "Q1:".data kb with
    | none => rfl
    | some r => rw [occursIn, hx] at h; simp at h
  have hg : get_question kb 1 = none := by
    unfold get_question
    rw [hA]
  have hc : collect_questions kb = [] := by
    show collectAux kb 1 (8 + 1) = []
    rw [collectAux_succ, hg]
  refine ⟨hc, ?_⟩
  show (List.lookup
      (bestPair (fun q => score_openai user_query q) (collect_questions kb) (1, 0)).1
      (collect_questions kb)).map
      (fun u => ((bestPair (fun q => score_openai user_query q) (collect_questions kb) (1, 0)).1, u))
      = none
  rw [hc]
  rfl

/-- Claim C2, witness: a knowledge base without any `Q1:` marker. -/
theorem empty_kb_lookup_fails_witness :
    collect_questions "no markers here".data = [] ∧
    find_matching_question "no markers here".data "what".data = none :=
  empty_kb_lookup_fails "no markers here".data "what".data (by decide)

/-- Claim C3, counterexample: on `kb_text = "Q2: hi\nQ1:"` extraction at
index 1 succeeds with the empty string (a trailing `Q1:` marker with no
content), and index 2 would extract "hi", yet the collection is empty: the
empty entry is not collected and probing does not continue. -/
theorem empty_question_cex :
    get_question "Q2: hi\nQ1:".data 1 = some [] ∧
    get_question "Q2: hi\nQ1:".data 2 = some "hi".data ∧
    collect_questions "Q2: hi\nQ1:".data = [] := by decide

/-- Claim C3, amended: the collection loop stops at the first index whose
extraction is falsy in Python — either "not found" (None) or the empty
string: such an index is never collected and no later index is probed. -/
theorem empty_question_stops (kb : List Char) (i fuel : Nat)
    (h : get_question kb i = none ∨ get_question kb i = some []) :
    collectAux kb i (fuel + 1) = [] := by
  rcases h with h | h
  · rw [collectAux_succ, h]
  · rw [collectAux_succ, h]
    show (if ([] : List Char) = [] then ([] : List (Nat × List Char))
        else (i, []) :: collectAux kb (i + 1) fuel) = []
    rw [if_pos rfl]

/-- Claim C3, witness: the loop run on a text whose first extraction yields
the empty string. -/
theorem empty_question_stops_witness :
    collectAux "Q2: hi\nQ1:".data 1 (8 + 1) = [] :=
  empty_question_stops "Q2: hi\nQ1:".data 1 8 (Or.inr (by decide))

/-- Claim C4 (confirmed): whenever at least one entry is collected the
matcher returns normally, the returned entry is a collected entry, its
score is the maximum over all collected entries, and among the entries
achieving that maximum the returned index is the lowest (strict-inequality
updates mean the first entry of the ascending scan wins). -/
theorem tie_break_lowest_index (kb user_query : List Char)
    (hne : collect_questions kb ≠ []) :
    ∃ b t, find_matching_question kb user_query = some (b, t) ∧
      (b, t) ∈ collect_questions kb ∧
      (∀ e ∈ collect_questions kb,
        score_openai user_query e.2 ≤ score_openai user_query t) ∧
      (∀ e ∈ collect_questions kb,
        score_openai user_query e.2 = score_openai user_query t → b ≤ e.1) := by
  obtain ⟨q1, hq1ne, hgq1, hqs⟩ := collect_head kb hne
  have hsorted : (collect_questions kb).Pairwise (fun a b => a.1 < b.1) :=
    sorted_collectAux kb 9 1
  rcases bestPair_char (fun q => score_openai user_query q) (collect_questions kb) 1 0 with
    ⟨heq, hall⟩ | ⟨l₁, e, l₂, hsp, hres, hlt, h₁, h₂⟩
  · have hmem1 : ((1 : Nat), q1) ∈ collect_questions kb := by
      rw [hqs]; exact List.mem_cons_self _ _
    have hlu : List.lookup 1 (collect_questions kb) = some q1 :=
      lookup_of_mem _ hsorted 1 q1 hmem1
    have hfind : find_matching_question kb user_query = some (1, q1) :=
      find_eq_some kb user_query 1 q1 (by rw [heq]) hlu
    refine ⟨1, q1, hfind, hmem1, ?_, ?_⟩
    · intro a ha
      have h0 : score_openai user_query q1 = 0 := Nat.le_zero.mp (hall (1, q1) hmem1)
      rw [h0]
      exact hall a ha
    · intro a ha _
      exact (mem_collectAux kb 9 1 a ha).1
  · obtain ⟨be, te⟩ := e
    have hmem : ((be, te) : Nat × List Char) ∈ collect_questions kb := by
      rw [hsp]; exact List.mem_append_right _ (List.mem_cons_self _ _)
    have hlu : List.lookup be (collect_questions kb) = some te :=
      lookup_of_mem _ hsorted be te hmem
    have hfind : find_matching_question kb user_query = some (be, te) :=
      find_eq_some kb user_query be te (by rw [hres]) hlu
    refine ⟨be, te, hfind, hmem, ?_, ?_⟩
    · intro a ha
      rw [hsp] at ha
      rcases List.mem_append.mp ha with h | h
      · exact le_of_lt (h₁ a h)
      · rcases List.mem_cons.mp h with h | h
        · subst h; exact Nat.le_refl _
        · exact h₂ a h
    · intro a ha hscore
      rw [hsp] at ha
      rcases List.mem_append.mp ha with h | h
      · exact absurd hscore (Nat.ne_of_lt (h₁ a h))
      · rcases List.mem_cons.mp h with h | h
        · subst h; exact Nat.le_refl _
        · have hpair : (((be, te) : Nat × List Char) :: l₂).Pairwise (fun x y => x.1 < y.1) := by
            have hs := hsorted
            rw [hsp] at hs
            exact (List.pairwise_append.mp hs).2.1
          have hlt' : be < a.1 := (List.pairwise_cons.mp hpair).1 a h
          exact le_of_lt hlt'

/-- Claim C4, witness: two questions tied at the identical non-zero score 2
for the query "alpha beta"; the matcher must return the lower index 1. -/
theorem tie_break_lowest_index_witness :
    ∃ b t, find_matching_question "Q1: alpha beta\nQ2: alpha beta gamma".data
        "alpha beta".data = some (b, t) ∧
      (b, t) ∈ collect_questions "Q1: alpha beta\nQ2: alpha beta gamma".data ∧
      (∀ e ∈ collect_questions "Q1: alpha beta\nQ2: alpha beta gamma".data,
        score_openai "alpha beta".data e.2 ≤ score_openai "alpha beta".data t) ∧
      (∀ e ∈ collect_questions "Q1: alpha beta\nQ2: alpha beta gamma".data,
        score_openai "alpha beta".data e.2 = score_openai "alpha beta".data t → b ≤ e.1) :=
  tie_break_lowest_index "Q1: alpha beta\nQ2: alpha beta gamma".data "alpha beta".data
    (by decide)

/-- Claim C5 (confirmed): when every collected entry scores 0 against the
query (no shared normalised word, in particular for the empty query), the
scoring state never changes, so the matcher returns normally with the
default index 1 and best score 0. -/
theorem default_on_no_overlap (kb user_query : List Char)
    (hne : collect_questions kb ≠ [])
    (h0 : ∀ e ∈ collect_questions kb, score_openai user_query e.2 = 0) :
    bestPair (fun q => score_openai user_query q) (collect_questions kb) (1, 0) = (1, 0) ∧
    ∃ t, find_matching_question kb user_query = some (1, t) := by
  obtain ⟨q1, hq1ne, hgq1, hqs⟩ := collect_head kb hne
  have hstay : bestPair (fun q => score_openai user_query q)
      (collect_questions kb) (1, 0) = (1, 0) :=
    bestPair_no_update _ _ 1 0 (fun e he => Nat.le_of_eq (h0 e he))
  have hmem1 : ((1 : Nat), q1) ∈ collect_questions kb := by
    rw [hqs]; exact List.mem_cons_self _ _
  have hsorted : (collect_questions kb).Pairwise (fun a b => a.1 < b.1) :=
    sorted_collectAux kb 9 1
  have hlu := lookup_of_mem _ hsorted 1 q1 hmem1
  exact ⟨hstay, q1, find_eq_some kb user_query 1 q1 (by rw [hstay]) hlu⟩

/-- Claim C5, witness: the empty query against a one-entry knowledge base
shares no word with any question. -/
theorem default_on_no_overlap_witness :
    bestPair (fun q => score_openai "".data q)
      (collect_questions "Q1: hello\nA1: world".data) (1, 0) = (1, 0) ∧
    ∃ t, find_matching_question "Q1: hello\nA1: world".data "".data = some (1, t) :=
  default_on_no_overlap "Q1: hello\nA1: world".data "".data (by decide) (by decide)

/-- Claim C6, counterexample: `"Q3: x\nQ1:"` contains a `Q1:` marker and a
`Q3:` marker and no `Q2:` marker, yet collection yields zero entries, not
exactly one — extraction at index 1 yields the empty string, which stops
the loop before anything is collected. -/
theorem gap_stop_cex :
    occursIn "Q1:".data "Q3: x\nQ1:".data = true ∧
    occursIn "Q3:".data "Q3: x\nQ1:".data = true ∧
    occursIn "Q2:".data "Q3: x\nQ1:".data = false ∧
    collect_questions "Q3: x\nQ1:".data = [] := by decide

/-- Claim C6, amended: for every kb_text without a `Q2:` marker the
collection holds at most one entry and any collected entry has index 1 —
probing stops at index 2, so nothing is ever collected for `Q3:` — and
whenever extraction at index 1 yields non-empty text the collection is
exactly the one entry of index 1 carrying that text. -/
theorem gap_stop (kb : List Char) (h : occursIn "Q2:".data kb = false) :
    (∀ e ∈ collect_questions kb, e.1 = 1) ∧ (collect_questions kb).length ≤ 1 ∧
    (∀ q, q ≠ [] → get_question kb 1 = some q → collect_questions kb = [(1, q)]) := by
  have hA : afterFirst (qMarker 2) kb = none := by
    have hqm : qMarker 2 = "Q2:".data := rfl
    rw [hqm]
    cases hx : afterFirst "Q2:".data kb with
    | none => rfl
    | some r => rw [occursIn, hx] at h; simp at h
  have hg2 : get_question kb 2 = none := by
    unfold get_question
    rw [hA]
  have hc2 : collectAux kb 2 8 = [] := by
    rw [show (8 : Nat) = 7 + 1 from rfl, collectAux_succ, hg2]
  have hthird : ∀ q, q ≠ [] → get_question kb 1 = some q →
      collect_questions kb = [(1, q)] := by
    intro q hq hgq
    show collectAux kb 1 (8 + 1) = [(1, q)]
    rw [collectAux_succ, hgq]
    show (if q = [] then ([] : List (Nat × List Char))
        else (1, q) :: collectAux kb (1 + 1) 8) = [(1, q)]
    rw [if_neg hq, show collectAux kb (1 + 1) 8 = [] from hc2]
  have hfront : (∀ e ∈ collect_questions kb, e.1 = 1) ∧
      (collect_questions kb).length ≤ 1 := by
    rcases head_collectAux kb 8 1 with he | ⟨q, hqne, hgq, heq⟩
    · have hc : collect_questions kb = [] := he
      rw [hc]
      simp
    · have hc : collect_questions kb = [(1, q)] := hthird q hqne hgq
      rw [hc]
      simp
  exact ⟨hfront.1, hfront.2, hthird⟩

/-- Claim C6, witness: a gap text with a well-formed first entry. -/
theorem gap_stop_witness :
    (∀ e ∈ collect_questions "Q1: a\nQ3: b".data, e.1 = 1) ∧
    (collect_questions "Q1: a\nQ3: b".data).length ≤ 1 ∧
    (∀ q, q ≠ [] → get_question "Q1: a\nQ3: b".data 1 = some q →
      collect_questions "Q1: a\nQ3: b".data = [(1, q)]) :=
  gap_stop "Q1: a\nQ3: b".data (by decide)

/-- Claim C7 (confirmed): collection never yields more than 9 entries (the
loop ranges over indices 1..9 only), and on ten sequential well-formed
entries `Q1:`..`Q10:` it yields exactly the nine entries of indices 1..9;
the content of `Q10:` appears in no collected entry. -/
theorem nine_entry_ceiling :
    (∀ kb : List Char, (collect_questions kb).length ≤ 9) ∧
    collect_questions kb10.data =
      [(1, "a1".data), (2, "a2".data), (3, "a3".data), (4, "a4".data), (5, "a5".data),
       (6, "a6".data), (7, "a7".data), (8, "a8".data), (9, "a9".data)] ∧
    (∀ e ∈ collect_questions kb10.data, occursIn "a10".data e.2 = false) := by
  refine ⟨fun kb => collectAux_length_le kb 9 1, ?_, ?_⟩ <;> decide

set_option maxRecDepth 100000 in
set_option maxHeartbeats 4000000 in
/-- Claim C8 (confirmed): on the sample knowledge base of tests/test.py the
query "How can I submit a report on expenses?" selects index 4, the
expense-report entry, whose normalised word overlap (4) is strictly larger
than every other entry's. -/
theorem end_to_end_expense :
    find_matching_question_clean sampleKB.data expenseQuery.data =
      some (4, "How do I submit an expense report?".data) ∧
    score_clean expenseQuery.data "How do I submit an expense report?".data = 4 ∧
    (∀ e ∈ collect_questions sampleKB.data, e.1 ≠ 4 →
      score_clean expenseQuery.data e.2 <
        score_clean expenseQuery.data "How do I submit an expense report?".data) := by
  decide

/-- Claim C9 (confirmed): whenever the matcher returns normally, re-invoking
the extractor on the same text with the returned index succeeds and yields
exactly the returned question text. -/
theorem round_trip_index (kb user_query : List Char) (b : Nat) (t : List Char)
    (h : find_matching_question kb user_query = some (b, t)) :
    get_question kb b = some t := by
  obtain ⟨hb, hlu⟩ := find_inv kb user_query b t h
  have hmem := mem_of_lookup _ b t hlu
  exact (mem_collectAux kb 9 1 (b, t) hmem).2.2.1

/-- Claim C9, witness: the round trip on a one-entry knowledge base. -/
theorem round_trip_index_witness :
    get_question "Q1: hello\nA1: x".data 1 = some "hello".data :=
  round_trip_index "Q1: hello\nA1: x".data "hello".data 1 "hello".data (by decide)

/-- Claim C10 (confirmed): whenever either matcher returns normally the
returned index lies between 1 and 9 and the returned question text is
non-empty. -/
theorem result_index_range :
    (∀ (kb user_query : List Char) (b : Nat) (t : List Char),
      find_matching_question kb user_query = some (b, t) → 1 ≤ b ∧ b ≤ 9 ∧ t ≠ []) ∧
    (∀ (kb user_query : List Char) (b : Nat) (t : List Char),
      find_matching_question_clean kb user_query = some (b, t) → 1 ≤ b ∧ b ≤ 9 ∧ t ≠ []) := by
  constructor
  · intro kb uq b t h
    obtain ⟨hb, hlu⟩ := find_inv kb uq b t h
    obtain ⟨h1, h2, h3, h4⟩ := mem_collectAux kb 9 1 (b, t) (mem_of_lookup _ b t hlu)
    have h1' : 1 ≤ b := h1
    have h2' : b < 1 + 9 := h2
    have h4' : t ≠ [] := h4
    exact ⟨h1', by omega, h4'⟩
  · intro kb uq b t h
    obtain ⟨hb, hlu⟩ := find_clean_inv kb uq b t h
    obtain ⟨h1, h2, h3, h4⟩ := mem_collectAux kb 9 1 (b, t) (mem_of_lookup _ b t hlu)
    have h1' : 1 ≤ b := h1
    have h2' : b < 1 + 9 := h2
    have h4' : t ≠ [] := h4
    exact ⟨h1', by omega, h4'⟩

/-- Claim C10, witness: both matchers on a one-entry knowledge base. -/
theorem result_index_range_witness :
    (1 ≤ 1 ∧ 1 ≤ 9 ∧ ("hello".data : List Char) ≠ []) ∧
    (1 ≤ 1 ∧ 1 ≤ 9 ∧ ("hello".data : List Char) ≠ []) :=
  ⟨result_index_range.1 "Q1: hello\nA1: x".data "hello".data 1 "hello".data (by decide),
   result_index_range.2 "Q1: hello\nA1: x".data "hello".data 1 "hello".data (by decide)⟩
